import Mathlib

/-!
Shallow embedding of the StellarCade Wordle clone contract
(`src/contracts/wordle-clone/src/lib.rs`).

Bytes are modelled as `List Nat`, addresses as `Nat`, and the contract's
persistent/instance storage as a record of partial maps.  The external
SHA-256 primitive (`env.crypto().sha256`) is modelled as an explicit
function parameter `H`; authentication (`require_auth`) always succeeds,
event publication and TTL extension have no storage effect and are
omitted.  Each contract entry point becomes a function from the pre-state
to a result together with the post-state; the post-state carried on an
error is the state at the point of failure, so atomicity is a theorem and
not a construction.
-/

namespace Wordle

/-- Number of characters in every guess/answer (`WORD_LENGTH`). -/
def WORD_LENGTH : Nat := 5

/-- Maximum guesses a player may submit per puzzle (`MAX_ATTEMPTS`). -/
def MAX_ATTEMPTS : Nat := 6

/-- Maximum players allowed per puzzle (`MAX_PLAYERS_PER_PUZZLE`). -/
def MAX_PLAYERS_PER_PUZZLE : Nat := 1000

/-- `2^32`, the modulus of the `u32` type used by the contract's counters. -/
def U32_MOD : Nat := 4294967296

/-- Letter is absent from the answer (`SCORE_ABSENT`). -/
def SCORE_ABSENT : Nat := 0

/-- Letter is in the answer but in the wrong position (`SCORE_PRESENT`). -/
def SCORE_PRESENT : Nat := 1

/-- Letter is in the correct position (`SCORE_CORRECT`). -/
def SCORE_CORRECT : Nat := 2

/-- The contract's error enum (`Error`). -/
inductive Error where
  | AlreadyInitialized
  | NotInitialized
  | NotAuthorized
  | PuzzleAlreadyExists
  | PuzzleNotFound
  | PuzzleNotOpen
  | PuzzleAlreadyFinalized
  | TooManyAttempts
  | InvalidWordLength
  | CommitmentMismatch
  | Overflow
  | PuzzleFull
  | AnswerNotRevealed
deriving DecidableEq, Repr

/-- Lifecycle state of a puzzle (`PuzzleStatus`). -/
inductive PuzzleStatus where
  | Open
  | Revealed
  | Finalized
deriving DecidableEq, Repr

/-- Puzzle metadata and result summary (`PuzzleData`). -/
structure PuzzleData where
  answer_commitment : List Nat
  status : PuzzleStatus
  answer : List Nat
  winner_count : Nat
  player_count : Nat
deriving DecidableEq, Repr

/-- A single scored guess (`Attempt`). -/
structure Attempt where
  guess : List Nat
  scores : List Nat
deriving DecidableEq, Repr

/-- `u32::checked_add`: `none` when the sum leaves the `u32` range. -/
def checked_add (a b : Nat) : Option Nat :=
  if a + b < U32_MOD then some (a + b) else none

/-- The contract's storage: instance keys (`Admin`, `PrizePoolContract`,
`BalanceContract`) and persistent keys (`Puzzle`, `PlayerList`, `Attempts`,
`Winner`) of `DataKey`, as a record of partial maps. -/
structure ContractState where
  admin : Option Nat
  prizePool : Option Nat
  balance : Option Nat
  puzzles : Nat → Option PuzzleData
  playerLists : Nat → Option (List Nat)
  attempts : Nat → Nat → Option (List Attempt)
  winners : Nat → Nat → Option Bool

/-- The ledger before `init`: no record exists. -/
def initialState : ContractState :=
  { admin := none
    prizePool := none
    balance := none
    puzzles := fun _ => none
    playerLists := fun _ => none
    attempts := fun _ _ => none
    winners := fun _ _ => none }

/-- `persist_set` on a `Puzzle(puzzle_id)` key. -/
def setPuzzle (s : ContractState) (pid : Nat) (pz : PuzzleData) : ContractState :=
  { s with puzzles := fun k => if k = pid then some pz else s.puzzles k }

/-- `persist_set` on a `PlayerList(puzzle_id)` key. -/
def setPlayerList (s : ContractState) (pid : Nat) (ps : List Nat) : ContractState :=
  { s with playerLists := fun k => if k = pid then some ps else s.playerLists k }

/-- `persist_set` on an `Attempts(puzzle_id, player)` key. -/
def setAttempts (s : ContractState) (pid player : Nat) (atts : List Attempt) : ContractState :=
  { s with attempts := fun k p =>
      if k = pid ∧ p = player then some atts else s.attempts k p }

/-- `persist_set` on a `Winner(puzzle_id, player)` key. -/
def setWinner (s : ContractState) (pid player : Nat) (b : Bool) : ContractState :=
  { s with winners := fun k p =>
      if k = pid ∧ p = player then some b else s.winners k p }

/-- Pass 2's inner loop of `score_guess`: scan the `answer_used` flags from
index `j` upward and return the first index whose flag is unset and whose
answer byte (`answer.get(j).unwrap_or(1)`) equals `g`. -/
def findPresent (answer : List Nat) (g : Nat) : List Bool → Nat → Option Nat
  | [], _ => none
  | u :: rest, j =>
    if u then findPresent answer g rest (j + 1)
    else if (answer[j]?).getD 1 = g then some j
    else findPresent answer g rest (j + 1)

/-- One iteration of pass 2 of `score_guess` at guess position `i`: when the
position was not an exact match, look for an unconsumed answer byte equal to
`guess.get(i).unwrap_or(0)`; on success mark the position PRESENT and consume
that answer byte. -/
def pass2Step (guess : List Nat) (matched : List Bool) (answer : List Nat)
    (st : List Nat × List Bool) (i : Nat) : List Nat × List Bool :=
  if (matched[i]?).getD false then st
  else
    match findPresent answer ((guess[i]?).getD 0) st.2 0 with
    | some j => (st.1.set i SCORE_PRESENT, st.2.set j true)
    | none => st

/-- `score_guess`: pass 1 marks exact matches (comparing the two `Option`
reads, as the Rust `guess.get(i) == answer.get(i)` does), initialising
`scores`, `answer_used` and `guess_matched`; pass 2 folds `pass2Step` over
the five positions. -/
def score_guess (guess answer : List Nat) : List Nat :=
  let matched := (List.range WORD_LENGTH).map fun i =>
    decide (guess[i]? = answer[i]?)
  let scores0 := (List.range WORD_LENGTH).map fun i =>
    if guess[i]? = answer[i]? then SCORE_CORRECT else SCORE_ABSENT
  ((List.range WORD_LENGTH).foldl (pass2Step guess matched answer) (scores0, matched)).1

/-- `is_all_correct`: every score equals `SCORE_CORRECT` (reading each entry
with `unwrap_or(0)`) and the vector has length `WORD_LENGTH`. -/
def is_all_correct (scores : List Nat) : Bool :=
  ((List.range scores.length).all fun i => (scores[i]?).getD 0 == SCORE_CORRECT)
    && scores.length == WORD_LENGTH

/-- `init`: store the admin and collaborator addresses once; fail with
`AlreadyInitialized` if the `Admin` key already exists. -/
def init (s : ContractState) (admin prize_pool_contract balance_contract : Nat) :
    Except Error Unit × ContractState :=
  if s.admin.isSome then (Except.error Error.AlreadyInitialized, s)
  else
    (Except.ok (),
      { s with
          admin := some admin
          prizePool := some prize_pool_contract
          balance := some balance_contract })

/-- `get_admin`: the stored admin or `NotInitialized`. -/
def get_admin (s : ContractState) : Except Error Nat :=
  match s.admin with
  | some a => Except.ok a
  | none => Except.error Error.NotInitialized

/-- `create_daily_puzzle`: admin only; fail if the puzzle id exists, else
store a fresh `Open` puzzle with empty answer and an empty player list. -/
def create_daily_puzzle (s : ContractState) (pid : Nat) (answer_commitment : List Nat) :
    Except Error Unit × ContractState :=
  match get_admin s with
  | Except.error e => (Except.error e, s)
  | Except.ok _ =>
    if (s.puzzles pid).isSome then (Except.error Error.PuzzleAlreadyExists, s)
    else
      let puzzle : PuzzleData :=
        { answer_commitment := answer_commitment
          status := PuzzleStatus.Open
          answer := []
          winner_count := 0
          player_count := 0 }
      (Except.ok (), setPlayerList (setPuzzle s pid puzzle) pid [])

/-- Tail of `submit_attempt` after the first-attempt registration: append the
new unscored attempt, persist it, then compute the event's 1-indexed attempt
number with `checked_add`. -/
def finishSubmit (s : ContractState) (pid player : Nat) (atts : List Attempt)
    (attempt : List Nat) (attempt_number : Nat) : Except Error Unit × ContractState :=
  let s1 := setAttempts s pid player (atts ++ [{ guess := attempt, scores := [] }])
  match checked_add attempt_number 1 with
  | none => (Except.error Error.Overflow, s1)
  | some _ => (Except.ok (), s1)

/-- `submit_attempt`: length check, puzzle lookup, status check, attempt-cap
check, first-attempt registration (capacity check, player-list append,
checked `player_count` bump), then the attempt append. -/
def submit_attempt (s : ContractState) (player pid : Nat) (attempt : List Nat) :
    Except Error Unit × ContractState :=
  if attempt.length ≠ WORD_LENGTH then (Except.error Error.InvalidWordLength, s)
  else
    match s.puzzles pid with
    | none => (Except.error Error.PuzzleNotFound, s)
    | some puzzle =>
      if puzzle.status ≠ PuzzleStatus.Open then (Except.error Error.PuzzleNotOpen, s)
      else
        let atts := (s.attempts pid player).getD []
        let attempt_number := atts.length
        if attempt_number ≥ MAX_ATTEMPTS then (Except.error Error.TooManyAttempts, s)
        else if attempt_number = 0 then
          if puzzle.player_count ≥ MAX_PLAYERS_PER_PUZZLE then
            (Except.error Error.PuzzleFull, s)
          else
            let players := (s.playerLists pid).getD []
            let s1 := setPlayerList s pid (players ++ [player])
            match checked_add puzzle.player_count 1 with
            | none => (Except.error Error.Overflow, s1)
            | some pc =>
              let s2 := setPuzzle s1 pid { puzzle with player_count := pc }
              finishSubmit s2 pid player atts attempt attempt_number
        else finishSubmit s pid player atts attempt attempt_number

/-- `reveal_answer`: admin only; length check, puzzle lookup, status check
(`PuzzleAlreadyFinalized` when not `Open`), commitment check against the
digest `H answer`, then store the answer and move to `Revealed`. -/
def reveal_answer (H : List Nat → List Nat) (s : ContractState) (pid : Nat)
    (answer : List Nat) : Except Error Unit × ContractState :=
  match get_admin s with
  | Except.error e => (Except.error e, s)
  | Except.ok _ =>
    if answer.length ≠ WORD_LENGTH then (Except.error Error.InvalidWordLength, s)
    else
      match s.puzzles pid with
      | none => (Except.error Error.PuzzleNotFound, s)
      | some puzzle =>
        if puzzle.status ≠ PuzzleStatus.Open then
          (Except.error Error.PuzzleAlreadyFinalized, s)
        else if H answer ≠ puzzle.answer_commitment then
          (Except.error Error.CommitmentMismatch, s)
        else
          (Except.ok (),
            setPuzzle s pid { puzzle with status := PuzzleStatus.Revealed, answer := answer })

/-- The inner loop of `finalize_result` over one player's attempts: each
attempt is rescored against the answer; the flag records whether any attempt
`is_all_correct`. -/
def scoreLoop (answer : List Nat) : List Attempt → List Attempt × Bool
  | [] => ([], false)
  | att :: rest =>
    let scores := score_guess att.guess answer
    let solved := is_all_correct scores
    let (scoredRest, wonRest) := scoreLoop answer rest
    ({ guess := att.guess, scores := scores } :: scoredRest, solved || wonRest)

/-- The outer loop of `finalize_result` over the player list: persist each
player's scored attempts, set the `Winner` flag and bump `winner_count` with
`checked_add` for each player who solved the puzzle. -/
def finalizePlayers (answer : List Nat) (pid : Nat) :
    List Nat → ContractState → Nat → Except Error Nat × ContractState
  | [], s, winner_count => (Except.ok winner_count, s)
  | p :: rest, s, winner_count =>
    let atts := (s.attempts pid p).getD []
    let (scored, player_won) := scoreLoop answer atts
    let s1 := setAttempts s pid p scored
    if player_won then
      let s2 := setWinner s1 pid p true
      match checked_add winner_count 1 with
      | none => (Except.error Error.Overflow, s2)
      | some wc => finalizePlayers answer pid rest s2 wc
    else finalizePlayers answer pid rest s1 winner_count

/-- `finalize_result`: admin only; puzzle lookup, one-shot and
answer-revealed checks, then the scoring pass over all players (the `player`
argument is ignored, mirroring `let _ = player`), and finally the transition
to `Finalized` with the accumulated `winner_count`. -/
def finalize_result (s : ContractState) (player pid : Nat) :
    Except Error Unit × ContractState :=
  match get_admin s with
  | Except.error e => (Except.error e, s)
  | Except.ok _ =>
    match s.puzzles pid with
    | none => (Except.error Error.PuzzleNotFound, s)
    | some puzzle =>
      if puzzle.status = PuzzleStatus.Finalized then
        (Except.error Error.PuzzleAlreadyFinalized, s)
      else if puzzle.status ≠ PuzzleStatus.Revealed then
        (Except.error Error.AnswerNotRevealed, s)
      else
        let _ := player
        let answer := puzzle.answer
        let players := (s.playerLists pid).getD []
        match finalizePlayers answer pid players s 0 with
        | (Except.error e, s1) => (Except.error e, s1)
        | (Except.ok winner_count, s1) =>
          (Except.ok (),
            setPuzzle s1 pid
              { puzzle with status := PuzzleStatus.Finalized, winner_count := winner_count })

/-- `get_attempts`: a player's attempt list, empty when absent. -/
def get_attempts (s : ContractState) (player pid : Nat) : List Attempt :=
  (s.attempts pid player).getD []

/-- `is_winner`: the `Winner(puzzle_id, player)` flag, `false` when absent. -/
def is_winner (s : ContractState) (pid player : Nat) : Bool :=
  (s.winners pid player).getD false

/-- One invocation of the contract, with the digest primitive of a reveal
carried in the operation. -/
inductive Op where
  | opInit (admin prize_pool_contract balance_contract : Nat)
  | opCreate (pid : Nat) (answer_commitment : List Nat)
  | opSubmit (player pid : Nat) (attempt : List Nat)
  | opReveal (H : List Nat → List Nat) (pid : Nat) (answer : List Nat)
  | opFinalize (player pid : Nat)

/-- Run one invocation against a state. -/
def apply (op : Op) (s : ContractState) : Except Error Unit × ContractState :=
  match op with
  | Op.opInit a ppc bc => init s a ppc bc
  | Op.opCreate pid c => create_daily_puzzle s pid c
  | Op.opSubmit player pid att => submit_attempt s player pid att
  | Op.opReveal H pid ans => reveal_answer H s pid ans
  | Op.opFinalize player pid => finalize_result s player pid

/-- States reachable from the empty ledger by contract invocations (with an
arbitrary digest primitive at each reveal). -/
inductive Reachable : ContractState → Prop where
  | empty : Reachable initialState
  | step (op : Op) {s : ContractState} : Reachable s → Reachable (apply op s).2

/-- Rank of a lifecycle stage in the Open → Revealed → Finalized order. -/
def rankOfStatus : PuzzleStatus → Nat
  | PuzzleStatus.Open => 1
  | PuzzleStatus.Revealed => 2
  | PuzzleStatus.Finalized => 3

/-- Rank of a puzzle's lifecycle stage; a missing puzzle ranks below `Open`. -/
def statusRank : Option PuzzleData → Nat
  | none => 0
  | some pz => rankOfStatus pz.status

/-- Number of guess positions that a score vector marks CORRECT or PRESENT
and whose guess letter is `c`. -/
def hitCount (guess : List Nat) (c : Nat) (scores : List Nat) : Nat :=
  ((Finset.range WORD_LENGTH).filter fun i =>
    (scores[i]? = some SCORE_CORRECT ∨ scores[i]? = some SCORE_PRESENT) ∧
      guess[i]? = some c).card

/-- Number of consumed (`answer_used`) positions whose answer byte is `c`. -/
def usedCount (answer : List Nat) (c : Nat) (used : List Bool) : Nat :=
  ((Finset.range WORD_LENGTH).filter fun j =>
    used[j]? = some true ∧ (answer[j]?).getD 1 = c).card

/-- A reachable-looking sample state: initialized, one `Open` puzzle with
id 1 and commitment `[1, 2, 3, 4, 5]`, no attempts yet. -/
def exampleOpenState : ContractState :=
  { admin := some 7
    prizePool := some 8
    balance := some 9
    puzzles := fun k =>
      if k = 1 then
        some { answer_commitment := [1, 2, 3, 4, 5], status := PuzzleStatus.Open,
               answer := [], winner_count := 0, player_count := 0 }
      else none
    playerLists := fun k => if k = 1 then some [] else none
    attempts := fun _ _ => none
    winners := fun _ _ => none }

/-- A state with an `Open` puzzle 1 where player 0 already has six recorded
attempts. -/
def exampleCapState : ContractState :=
  { admin := some 7
    prizePool := some 8
    balance := some 9
    puzzles := fun k =>
      if k = 1 then
        some { answer_commitment := [1, 2, 3, 4, 5], status := PuzzleStatus.Open,
               answer := [], winner_count := 0, player_count := 1 }
      else none
    playerLists := fun k => if k = 1 then some [0] else none
    attempts := fun k p =>
      if k = 1 ∧ p = 0 then
        some (List.replicate 6 { guess := [1, 1, 1, 1, 1], scores := [] })
      else none
    winners := fun _ _ => none }

/-- A state like `exampleOpenState` whose puzzle 1 is already `Revealed`. -/
def exampleRevealedState : ContractState :=
  { admin := some 7
    prizePool := some 8
    balance := some 9
    puzzles := fun k =>
      if k = 1 then
        some { answer_commitment := [1, 2, 3, 4, 5], status := PuzzleStatus.Revealed,
               answer := [1, 2, 3, 4, 5], winner_count := 0, player_count := 0 }
      else none
    playerLists := fun k => if k = 1 then some [] else none
    attempts := fun _ _ => none
    winners := fun _ _ => none }

/-- A revealed puzzle with two players who both guessed the exact answer. -/
def exampleTwoWinnerState : ContractState :=
  { admin := some 7
    prizePool := some 8
    balance := some 9
    puzzles := fun k =>
      if k = 1 then
        some { answer_commitment := [1, 2, 3, 4, 5], status := PuzzleStatus.Revealed,
               answer := [1, 2, 3, 4, 5], winner_count := 0, player_count := 2 }
      else none
    playerLists := fun k => if k = 1 then some [10, 20] else none
    attempts := fun k p =>
      if k = 1 ∧ (p = 10 ∨ p = 20) then some [{ guess := [1, 2, 3, 4, 5], scores := [] }]
      else none
    winners := fun _ _ => none }

end Wordle

namespace Wordle

/-- Reading `matched` (= `guess_matched` = initial `answer_used`) at an
in-range index. -/
theorem matched_getElem (guess answer : List Nat) (i : Nat) (h : i < WORD_LENGTH) :
    ((List.range WORD_LENGTH).map fun k => decide (guess[k]? = answer[k]?))[i]?
      = some (decide (guess[i]? = answer[i]?)) := by
  rw [List.getElem?_map, List.getElem?_range h, Option.map_some']

/-- Reading the pass-1 score vector at an in-range index. -/
theorem scores0_getElem (guess answer : List Nat) (i : Nat) (h : i < WORD_LENGTH) :
    ((List.range WORD_LENGTH).map fun k =>
        if guess[k]? = answer[k]? then SCORE_CORRECT else SCORE_ABSENT)[i]?
      = some (if guess[i]? = answer[i]? then SCORE_CORRECT else SCORE_ABSENT) := by
  rw [List.getElem?_map, List.getElem?_range h, Option.map_some']

/-- `pass2Step` preserves the length of the score vector. -/
theorem pass2Step_length_fst (guess matched answer st i) :
    (pass2Step guess matched answer st i).1.length = st.1.length := by
  unfold pass2Step
  split
  · rfl
  · split
    · exact List.length_set ..
    · rfl

/-- `pass2Step` preserves the length of the `answer_used` vector. -/
theorem pass2Step_length_snd (guess matched answer st i) :
    (pass2Step guess matched answer st i).2.length = st.2.length := by
  unfold pass2Step
  split
  · rfl
  · split
    · exact List.length_set ..
    · rfl

/-- Pass 2 as a whole preserves the length of the score vector. -/
theorem foldl_pass2_length_fst (guess matched answer) (l : List Nat)
    (st : List Nat × List Bool) :
    (l.foldl (pass2Step guess matched answer) st).1.length = st.1.length := by
  induction l generalizing st with
  | nil => rfl
  | cons k rest ih => rw [List.foldl_cons, ih, pass2Step_length_fst]

/-- Each entry of a `pass2Step` result was already there or is `SCORE_PRESENT`. -/
theorem pass2Step_mem (guess matched answer st i) (x : Nat)
    (h : x ∈ (pass2Step guess matched answer st i).1) : x ∈ st.1 ∨ x = SCORE_PRESENT := by
  unfold pass2Step at h
  split at h
  · exact Or.inl h
  · split at h
    · exact List.mem_or_eq_of_mem_set h
    · exact Or.inl h

/-- Each entry of the pass-2 fold was in the initial score vector or is
`SCORE_PRESENT`. -/
theorem foldl_pass2_mem (guess matched answer) (l : List Nat)
    (st : List Nat × List Bool) (x : Nat)
    (h : x ∈ (l.foldl (pass2Step guess matched answer) st).1) :
    x ∈ st.1 ∨ x = SCORE_PRESENT := by
  induction l generalizing st with
  | nil => exact Or.inl h
  | cons k rest ih =>
    rcases ih _ h with h' | h'
    · exact pass2Step_mem _ _ _ _ _ _ h'
    · exact Or.inr h'

/-- A position `pass2Step` leaves at `SCORE_CORRECT` was already
`SCORE_CORRECT`: the step only writes `SCORE_PRESENT`. -/
theorem pass2Step_correct_back (guess matched answer st i) (k : Nat)
    (h : (pass2Step guess matched answer st i).1[k]? = some SCORE_CORRECT) :
    st.1[k]? = some SCORE_CORRECT := by
  unfold pass2Step at h
  split at h
  · exact h
  · split at h
    · by_cases hik : i = k
      · subst hik
        rw [List.getElem?_set_self'] at h
        rcases hm : st.1[i]? with _ | v
        · rw [hm] at h; simp at h
        · rw [hm] at h; simp [SCORE_PRESENT, SCORE_CORRECT] at h
      · rwa [List.getElem?_set_ne hik] at h
    · exact h

/-- A position the pass-2 fold leaves at `SCORE_CORRECT` was `SCORE_CORRECT`
in the initial score vector. -/
theorem foldl_pass2_correct_back (guess matched answer) (l : List Nat)
    (st : List Nat × List Bool) (k : Nat)
    (h : (l.foldl (pass2Step guess matched answer) st).1[k]? = some SCORE_CORRECT) :
    st.1[k]? = some SCORE_CORRECT := by
  induction l generalizing st with
  | nil => exact h
  | cons j rest ih => exact pass2Step_correct_back _ _ _ _ _ _ (ih _ h)

end Wordle

namespace Wordle

/-- The score vector always has length `WORD_LENGTH`. -/
theorem score_guess_length (guess answer : List Nat) :
    (score_guess guess answer).length = WORD_LENGTH := by
  unfold score_guess
  rw [foldl_pass2_length_fst, List.length_map, List.length_range]

/-- Folding a function that fixes every state is the identity. -/
theorem foldl_fixed {β : Type} (f : β → Nat → β) (l : List Nat) (st : β)
    (h : ∀ k ∈ l, ∀ b, f b k = b) : l.foldl f st = st := by
  induction l generalizing st with
  | nil => rfl
  | cons k rest ih =>
    rw [List.foldl_cons, h k (List.mem_cons_self k rest), ih]
    exact fun j hj => h j (List.mem_cons_of_mem k hj)

/-- `is_all_correct` in terms of the entries: true iff the vector has length
`WORD_LENGTH` and every in-range entry is `SCORE_CORRECT`. -/
theorem is_all_correct_iff (scores : List Nat) :
    is_all_correct scores = true ↔
      scores.length = WORD_LENGTH ∧ ∀ i < scores.length, scores[i]? = some SCORE_CORRECT := by
  unfold is_all_correct
  rw [Bool.and_eq_true, List.all_eq_true, beq_iff_eq]
  constructor
  · rintro ⟨hall, hlen⟩
    refine ⟨hlen, fun i hi => ?_⟩
    have := hall i (List.mem_range.mpr hi)
    rw [beq_iff_eq] at this
    rw [List.getElem?_eq_getElem hi]
    rw [List.getElem?_eq_getElem hi] at this
    simp only [Option.getD_some] at this
    exact congrArg some this
  · rintro ⟨hlen, hget⟩
    refine ⟨fun i hi => ?_, hlen⟩
    have hi' := List.mem_range.mp hi
    rw [beq_iff_eq, hget i hi', Option.getD_some]

end Wordle

namespace Wordle

/-- When guess and answer agree .... helper towards C2 -/
theorem score_guess_self (g a : List Nat) (heq : g = a) :
    is_all_correct (score_guess g a) = true := by
  subst heq
  unfold score_guess
  dsimp only
  rw [foldl_fixed]
  · rw [is_all_correct_iff]
    constructor
    · rw [List.length_map, List.length_range]
    · intro i hi
      rw [List.length_map, List.length_range] at hi
      rw [scores0_getElem g g i hi, if_pos rfl]
  · intro k hk st
    unfold pass2Step
    rw [matched_getElem g g k (List.mem_range.mp hk), if_pos]
    rw [Option.getD_some, decide_eq_true_eq]

theorem score_guess_eq_of_all_correct (g a : List Nat)
    (hg : g.length = WORD_LENGTH) (ha : a.length = WORD_LENGTH)
    (h : is_all_correct (score_guess g a) = true) : g = a := by
  rw [is_all_correct_iff] at h
  obtain ⟨hlen, hget⟩ := h
  have hpt : ∀ i, i < WORD_LENGTH → g[i]? = a[i]? := by
    intro i hi
    have h2 : (score_guess g a)[i]? = some SCORE_CORRECT := hget i (hlen ▸ hi)
    unfold score_guess at h2
    dsimp only at h2
    have h0 := foldl_pass2_correct_back _ _ _ _ _ _ h2
    rw [scores0_getElem g a i hi] at h0
    by_contra hne
    rw [if_neg hne] at h0
    simp [SCORE_ABSENT, SCORE_CORRECT] at h0
  refine List.ext_getElem? fun i => ?_
  by_cases hi : i < WORD_LENGTH
  · exact hpt i hi
  · push_neg at hi
    rw [List.getElem?_eq_none (hg ▸ hi), List.getElem?_eq_none (ha ▸ hi)]

end Wordle

namespace Wordle

/-- C10 helper: every entry of a score vector is one of the three marks. -/
theorem score_guess_mem (guess answer : List Nat) (x : Nat)
    (h : x ∈ score_guess guess answer) :
    x = SCORE_ABSENT ∨ x = SCORE_PRESENT ∨ x = SCORE_CORRECT := by
  unfold score_guess at h
  dsimp only at h
  rcases foldl_pass2_mem _ _ _ _ _ _ h with h' | h'
  · rcases List.mem_map.mp h' with ⟨i, _, hix⟩
    by_cases hc : guess[i]? = answer[i]?
    · rw [if_pos hc] at hix
      exact Or.inr (Or.inr hix.symm)
    · rw [if_neg hc] at hix
      exact Or.inl hix.symm
  · exact Or.inr (Or.inl h')

/-- C10: `score_guess` is total over inputs of arbitrary lengths: the result
always has length `WORD_LENGTH` (5) and every entry is `SCORE_ABSENT`,
`SCORE_PRESENT` or `SCORE_CORRECT`; out-of-range reads use `Option`
defaults, never trapping. -/
theorem score_guess_total (guess answer : List Nat) :
    (score_guess guess answer).length = WORD_LENGTH ∧
      ∀ x ∈ score_guess guess answer,
        x = SCORE_ABSENT ∨ x = SCORE_PRESENT ∨ x = SCORE_CORRECT :=
  ⟨score_guess_length guess answer, score_guess_mem guess answer⟩

/-- C2: for same-length (word-length) guess and answer, the score is
all-CORRECT — equivalently `is_all_correct` holds — iff guess = answer. -/
theorem all_correct_iff_eq (g a : List Nat)
    (hg : g.length = WORD_LENGTH) (ha : a.length = WORD_LENGTH) :
    is_all_correct (score_guess g a) = true ↔ g = a :=
  ⟨score_guess_eq_of_all_correct g a hg ha, score_guess_self g a⟩

/-- Witness for C2 at concrete five-byte words. -/
theorem all_correct_iff_eq_witness :
    ([3, 1, 4, 1, 5] : List Nat).length = WORD_LENGTH ∧
      (is_all_correct (score_guess [3, 1, 4, 1, 5] [3, 1, 4, 1, 5]) = true ↔
        ([3, 1, 4, 1, 5] : List Nat) = [3, 1, 4, 1, 5]) :=
  ⟨by decide, all_correct_iff_eq [3, 1, 4, 1, 5] [3, 1, 4, 1, 5] (by decide) (by decide)⟩

end Wordle

namespace Wordle

/-- What a successful `findPresent` scan guarantees: the found index is past
the start, in range of the flag list, its flag is unset, and its answer byte
equals the sought letter. -/
theorem findPresent_spec (answer : List Nat) (g : Nat) :
    ∀ (l : List Bool) (k j : Nat), findPresent answer g l k = some j →
      k ≤ j ∧ j - k < l.length ∧ l[j - k]? = some false ∧ (answer[j]?).getD 1 = g := by
  intro l
  induction l with
  | nil => intro k j h; simp [findPresent] at h
  | cons u rest ih =>
    intro k j h
    unfold findPresent at h
    split at h
    · obtain ⟨h1, h2, h3, h4⟩ := ih (k + 1) j h
      have hkj : k + 1 ≤ j := h1
      refine ⟨Nat.le_of_succ_le hkj, ?_, ?_, h4⟩
      · have : j - k = (j - (k + 1)) + 1 := by omega
        rw [this, List.length_cons]; omega
      · have : j - k = (j - (k + 1)) + 1 := by omega
        rw [this, List.getElem?_cons_succ]; exact h3
    · rename_i hu
      split at h
      · rename_i hbyte
        injection h with hjk
        subst hjk
        refine ⟨le_refl k, ?_, ?_, hbyte⟩
        · rw [Nat.sub_self, List.length_cons]; omega
        · rw [Nat.sub_self, List.getElem?_cons_zero]
          rw [Bool.not_eq_true] at hu
          rw [hu]
      · obtain ⟨h1, h2, h3, h4⟩ := ih (k + 1) j h
        have hkj : k + 1 ≤ j := h1
        refine ⟨Nat.le_of_succ_le hkj, ?_, ?_, h4⟩
        · have : j - k = (j - (k + 1)) + 1 := by omega
          rw [this, List.length_cons]; omega
        · have : j - k = (j - (k + 1)) + 1 := by omega
          rw [this, List.getElem?_cons_succ]; exact h3

end Wordle

namespace Wordle

/-- The pass-2 invariant: one step keeps the `answer_used` length and keeps
the CORRECT-or-PRESENT count for any letter bounded by the consumed count of
that letter. -/
theorem pass2Step_counts (guess : List Nat) (matched : List Bool) (answer : List Nat)
    (c : Nat) (st : List Nat × List Bool) (i : Nat)
    (hlen : st.2.length = WORD_LENGTH)
    (h : hitCount guess c st.1 ≤ usedCount answer c st.2) :
    (pass2Step guess matched answer st i).2.length = WORD_LENGTH ∧
      hitCount guess c (pass2Step guess matched answer st i).1 ≤
        usedCount answer c (pass2Step guess matched answer st i).2 := by
  unfold pass2Step
  split
  · exact ⟨hlen, h⟩
  · split
    · rename_i j hf
      dsimp only
      obtain ⟨-, hjlen, hjfalse, hjbyte⟩ := findPresent_spec answer _ st.2 0 j hf
      rw [Nat.sub_zero] at hjlen hjfalse
      refine ⟨by rw [List.length_set]; exact hlen, ?_⟩
      have hjmem : j ∈ Finset.range WORD_LENGTH := Finset.mem_range.mpr (hlen ▸ hjlen)
      have hjnot : j ∉ (Finset.range WORD_LENGTH).filter fun k =>
          st.2[k]? = some true ∧ (answer[k]?).getD 1 = c := by
        intro hc
        have h2 := (Finset.mem_filter.mp hc).2.1
        rw [hjfalse] at h2
        simp at h2
      have hUmono : usedCount answer c st.2 ≤ usedCount answer c (st.2.set j true) := by
        unfold usedCount
        refine Finset.card_le_card fun k hk => ?_
        rw [Finset.mem_filter] at hk ⊢
        have hkj : j ≠ k := by
          intro hkj
          subst hkj
          have h2 := hk.2.1
          rw [hjfalse] at h2
          simp at h2
        exact ⟨hk.1, by rw [List.getElem?_set_ne hkj]; exact hk.2.1, hk.2.2⟩
      by_cases hgc : guess[i]? = some c
      · have hbytec : (answer[j]?).getD 1 = c := by
          rw [hjbyte, hgc]
          rfl
        have hMle : hitCount guess c (st.1.set i SCORE_PRESENT) ≤ hitCount guess c st.1 + 1 := by
          unfold hitCount
          have hsub : ((Finset.range WORD_LENGTH).filter fun k =>
              ((st.1.set i SCORE_PRESENT)[k]? = some SCORE_CORRECT ∨
                (st.1.set i SCORE_PRESENT)[k]? = some SCORE_PRESENT) ∧ guess[k]? = some c) ⊆
              insert i ((Finset.range WORD_LENGTH).filter fun k =>
                (st.1[k]? = some SCORE_CORRECT ∨ st.1[k]? = some SCORE_PRESENT) ∧
                  guess[k]? = some c) := by
            intro k hk
            rw [Finset.mem_filter] at hk
            by_cases hki : k = i
            · subst hki
              exact Finset.mem_insert_self k _
            · refine Finset.mem_insert_of_mem (Finset.mem_filter.mpr ⟨hk.1, ?_, hk.2.2⟩)
              have hik : i ≠ k := fun hc => hki hc.symm
              rw [List.getElem?_set_ne hik] at hk
              exact hk.2.1
          exact le_trans (Finset.card_le_card hsub) (Finset.card_insert_le _ _)
        have hUge : usedCount answer c st.2 + 1 ≤ usedCount answer c (st.2.set j true) := by
          unfold usedCount
          rw [← Finset.card_insert_of_not_mem hjnot]
          refine Finset.card_le_card fun k hk => ?_
          rcases Finset.mem_insert.mp hk with hkj | hkmem
          · subst hkj
            refine Finset.mem_filter.mpr ⟨hjmem, ?_, hbytec⟩
            rw [List.getElem?_set_self', hjfalse]
            rfl
          · rw [Finset.mem_filter] at hkmem
            have hkj : j ≠ k := by
              intro hc
              subst hc
              have h2 := hkmem.2.1
              rw [hjfalse] at h2
              simp at h2
            refine Finset.mem_filter.mpr ⟨hkmem.1, ?_, hkmem.2.2⟩
            rw [List.getElem?_set_ne hkj]
            exact hkmem.2.1
        omega
      · have hMle : hitCount guess c (st.1.set i SCORE_PRESENT) ≤ hitCount guess c st.1 := by
          unfold hitCount
          refine Finset.card_le_card fun k hk => ?_
          rw [Finset.mem_filter] at hk ⊢
          have hki : k ≠ i := by
            intro hc
            subst hc
            exact hgc hk.2.2
          have hik : i ≠ k := fun hc => hki hc.symm
          rw [List.getElem?_set_ne hik] at hk
          exact ⟨hk.1, hk.2.1, hk.2.2⟩
        omega
    · exact ⟨hlen, h⟩

end Wordle

namespace Wordle

/-- The pass-2 invariant carried through the whole fold. -/
theorem foldl_pass2_counts (guess : List Nat) (matched : List Bool) (answer : List Nat)
    (c : Nat) (l : List Nat) (st : List Nat × List Bool)
    (hlen : st.2.length = WORD_LENGTH)
    (h : hitCount guess c st.1 ≤ usedCount answer c st.2) :
    hitCount guess c (l.foldl (pass2Step guess matched answer) st).1 ≤
      usedCount answer c (l.foldl (pass2Step guess matched answer) st).2 := by
  induction l generalizing st with
  | nil => exact h
  | cons k rest ih =>
    rw [List.foldl_cons]
    obtain ⟨hlen', h'⟩ := pass2Step_counts guess matched answer c st k hlen h
    exact ih _ hlen' h'

/-- The invariant holds after pass 1: a CORRECT mark at letter `c` consumes
the answer position it sits on, which carries `c`. -/
theorem pass1_counts (guess answer : List Nat) (c : Nat) :
    hitCount guess c ((List.range WORD_LENGTH).map fun i =>
        if guess[i]? = answer[i]? then SCORE_CORRECT else SCORE_ABSENT) ≤
      usedCount answer c ((List.range WORD_LENGTH).map fun i =>
        decide (guess[i]? = answer[i]?)) := by
  unfold hitCount usedCount
  refine Finset.card_le_card fun k hk => ?_
  rw [Finset.mem_filter] at hk ⊢
  have hkr := hk.1
  have hsc := hk.2.1
  have hgk := hk.2.2
  have hk5 : k < WORD_LENGTH := Finset.mem_range.mp hkr
  rw [scores0_getElem guess answer k hk5] at hsc
  have heq : guess[k]? = answer[k]? := by
    by_contra hne
    rw [if_neg hne] at hsc
    rcases hsc with hsc | hsc
    · injection hsc with hv
      exact absurd hv (by decide)
    · injection hsc with hv
      exact absurd hv (by decide)
  refine ⟨hkr, ?_, ?_⟩
  · rw [matched_getElem guess answer k hk5, decide_eq_true heq]
  · rw [← heq, hgk]
    rfl

/-- Dropping the `used` conjunct: the consumed count is at most the number of
in-range positions whose answer byte is `c`. -/
theorem usedCount_le (answer : List Nat) (c : Nat) (used : List Bool) :
    usedCount answer c used ≤
      ((Finset.range WORD_LENGTH).filter fun j => (answer[j]?).getD 1 = c).card := by
  unfold usedCount
  refine Finset.card_le_card fun k hk => ?_
  rw [Finset.mem_filter] at hk ⊢
  exact ⟨hk.1, hk.2.2⟩

/-- Counting positions of the answer holding byte `c` is counting the
occurrences of `c` in the answer. -/
theorem card_filter_byte (a : List Nat) (c : Nat) :
    ((Finset.range a.length).filter fun j => (a[j]?).getD 1 = c).card = a.count c := by
  induction a using List.reverseRecOn with
  | nil => simp
  | append_singleton l x ih =>
    rw [List.length_append, List.length_singleton, Finset.range_succ, Finset.filter_insert]
    have hcong : ((Finset.range l.length).filter fun j => ((l ++ [x])[j]?).getD 1 = c)
        = (Finset.range l.length).filter fun j => (l[j]?).getD 1 = c := by
      refine Finset.filter_congr fun j hj => ?_
      rw [List.getElem?_append_left (List.mem_range.mp hj)]
    have hx : ((l ++ [x])[l.length]?).getD 1 = x := by
      rw [List.getElem?_append_right (le_refl _), Nat.sub_self]
      rfl
    rw [List.count_append]
    by_cases hxc : x = c
    · rw [if_pos (by rw [hx]; exact hxc)]
      rw [Finset.card_insert_of_not_mem (fun hc => by
        have := (Finset.mem_filter.mp hc).1
        exact absurd (Finset.mem_range.mp this) (lt_irrefl _))]
      rw [hcong, ih, hxc]
      simp
    · rw [if_neg (by rw [hx]; exact hxc)]
      rw [hcong, ih]
      have hz : List.count c [x] = 0 := by
        rw [List.count_singleton']
        exact if_neg hxc
      rw [hz, Nat.add_zero]

end Wordle

namespace Wordle

/-- C3: duplicate-letter soundness — for word-length guess and answer, the
number of positions `score_guess` marks CORRECT or PRESENT whose guess letter
is `c` never exceeds the occurrences of `c` in the answer; and the SPEED /
EERIE example scores `[PRESENT, PRESENT, ABSENT, ABSENT, ABSENT]`. -/
theorem score_guess_dup_sound :
    (∀ (g a : List Nat) (c : Nat), g.length = WORD_LENGTH → a.length = WORD_LENGTH →
        hitCount g c (score_guess g a) ≤ a.count c) ∧
      score_guess [69, 69, 82, 73, 69] [83, 80, 69, 69, 68] =
        [SCORE_PRESENT, SCORE_PRESENT, SCORE_ABSENT, SCORE_ABSENT, SCORE_ABSENT] := by
  constructor
  · intro g a c hg ha
    unfold score_guess
    dsimp only
    have base := pass1_counts g a c
    have hlen : ((List.range WORD_LENGTH).map fun i =>
        decide (g[i]? = a[i]?)).length = WORD_LENGTH := by
      rw [List.length_map, List.length_range]
    have hinv := foldl_pass2_counts g
      ((List.range WORD_LENGTH).map fun i => decide (g[i]? = a[i]?)) a c
      (List.range WORD_LENGTH)
      (((List.range WORD_LENGTH).map fun i =>
          if g[i]? = a[i]? then SCORE_CORRECT else SCORE_ABSENT),
        (List.range WORD_LENGTH).map fun i => decide (g[i]? = a[i]?)) hlen base
    refine le_trans hinv (le_trans (usedCount_le a c _) ?_)
    rw [← ha]
    exact le_of_eq (card_filter_byte a c)
  · rfl

/-- Witness for C3 at the SPEED / EERIE example with letter E (byte 69). -/
theorem score_guess_dup_sound_witness :
    ([69, 69, 82, 73, 69] : List Nat).length = WORD_LENGTH ∧
      hitCount [69, 69, 82, 73, 69] 69
          (score_guess [69, 69, 82, 73, 69] [83, 80, 69, 69, 68]) ≤
        ([83, 80, 69, 69, 68] : List Nat).count 69 :=
  ⟨by decide, score_guess_dup_sound.1 [69, 69, 82, 73, 69] [83, 80, 69, 69, 68] 69
    (by decide) (by decide)⟩

end Wordle

namespace Wordle

theorem setPuzzle_attempts (s pid pz) : (setPuzzle s pid pz).attempts = s.attempts := rfl

theorem setPuzzle_playerLists (s pid pz) : (setPuzzle s pid pz).playerLists = s.playerLists := rfl

theorem setPuzzle_winners (s pid pz) : (setPuzzle s pid pz).winners = s.winners := rfl

theorem setPuzzle_admin (s pid pz) : (setPuzzle s pid pz).admin = s.admin := rfl

theorem setPlayerList_attempts (s pid ps) : (setPlayerList s pid ps).attempts = s.attempts := rfl

theorem setPlayerList_puzzles (s pid ps) : (setPlayerList s pid ps).puzzles = s.puzzles := rfl

theorem setAttempts_puzzles (s pid p atts) : (setAttempts s pid p atts).puzzles = s.puzzles := rfl

theorem setAttempts_playerLists (s pid p atts) :
    (setAttempts s pid p atts).playerLists = s.playerLists := rfl

theorem setAttempts_winners (s pid p atts) : (setAttempts s pid p atts).winners = s.winners := rfl

theorem setAttempts_admin (s pid p atts) : (setAttempts s pid p atts).admin = s.admin := rfl

theorem setWinner_puzzles (s pid p b) : (setWinner s pid p b).puzzles = s.puzzles := rfl

theorem setWinner_attempts (s pid p b) : (setWinner s pid p b).attempts = s.attempts := rfl

theorem setWinner_playerLists (s pid p b) :
    (setWinner s pid p b).playerLists = s.playerLists := rfl

theorem setWinner_admin (s pid p b) : (setWinner s pid p b).admin = s.admin := rfl

/-- C1: for an initialized contract and an `Open` puzzle, a word-length
reveal succeeds iff the digest of the supplied plaintext equals the stored
commitment; on mismatch it fails with `CommitmentMismatch` leaving every
record exactly as before. -/
theorem reveal_commitment (H : List Nat → List Nat) (s : ContractState) (pid : Nat)
    (answer : List Nat) (adm : Nat) (pz : PuzzleData)
    (hadm : s.admin = some adm) (hpz : s.puzzles pid = some pz)
    (hopen : pz.status = PuzzleStatus.Open) (hlen : answer.length = WORD_LENGTH) :
    ((reveal_answer H s pid answer).1 = Except.ok () ↔ H answer = pz.answer_commitment) ∧
      (H answer ≠ pz.answer_commitment →
        reveal_answer H s pid answer = (Except.error Error.CommitmentMismatch, s)) := by
  unfold reveal_answer get_admin
  rw [hadm]
  rw [if_neg (fun hc => hc hlen)]
  rw [hpz]
  dsimp only
  rw [if_neg (fun hc => hc hopen)]
  by_cases hH : H answer = pz.answer_commitment
  · rw [if_neg (fun hc => hc hH)]
    exact ⟨⟨fun _ => hH, fun _ => rfl⟩, fun hc => absurd hH hc⟩
  · rw [if_pos hH]
    refine ⟨⟨fun hc => ?_, fun hc => absurd hc hH⟩, fun _ => rfl⟩
    exact absurd hc (by simp)

/-- Witness for C1: with the identity digest, revealing `[9,9,9,9,9]`
against commitment `[1,2,3,4,5]` mismatches and leaves the state intact. -/
theorem reveal_commitment_witness :
    ((reveal_answer id exampleOpenState 1 [9, 9, 9, 9, 9]).1 = Except.ok () ↔
        id [9, 9, 9, 9, 9] = [1, 2, 3, 4, 5]) ∧
      (id [9, 9, 9, 9, 9] ≠ ([1, 2, 3, 4, 5] : List Nat) →
        reveal_answer id exampleOpenState 1 [9, 9, 9, 9, 9] =
          (Except.error Error.CommitmentMismatch, exampleOpenState)) :=
  reveal_commitment id exampleOpenState 1 [9, 9, 9, 9, 9] 7
    { answer_commitment := [1, 2, 3, 4, 5], status := PuzzleStatus.Open,
      answer := [], winner_count := 0, player_count := 0 } rfl rfl rfl rfl

/-- C9: `finalize_result` ignores its `player` argument — any two player
values give the same result and the same post-state. -/
theorem finalize_player_irrelevant (s : ContractState) (p1 p2 pid : Nat) :
    finalize_result s p1 pid = finalize_result s p2 pid := rfl

end Wordle

namespace Wordle

/-- Counterexample to C8: submitting a 2-byte guess for the unknown puzzle
id 99 fails with `InvalidWordLength`, not `PuzzleNotFound` — the length
check runs before the puzzle lookup. -/
theorem submit_unknown_short_guess_cex :
    initialState.puzzles 99 = none ∧
      (submit_attempt initialState 0 99 [1, 2]).1 = Except.error Error.InvalidWordLength ∧
      (submit_attempt initialState 0 99 [1, 2]).1 ≠ Except.error Error.PuzzleNotFound := by
  refine ⟨rfl, rfl, fun h => ?_⟩
  rw [show (submit_attempt initialState 0 99 [1, 2]).1 =
      Except.error Error.InvalidWordLength from rfl] at h
  injection h with h'
  exact Error.noConfusion h'

/-- C8 as amended: the guess-length check precedes the puzzle lookup —
a guess of wrong length fails with `InvalidWordLength` even for an unknown
puzzle, and an unknown puzzle is reported `PuzzleNotFound` exactly when the
guess has the word length. Both failures leave the state unchanged. -/
theorem submit_error_order (s : ContractState) (player pid : Nat) (attempt : List Nat) :
    (attempt.length ≠ WORD_LENGTH →
        submit_attempt s player pid attempt = (Except.error Error.InvalidWordLength, s)) ∧
      (attempt.length = WORD_LENGTH → s.puzzles pid = none →
        submit_attempt s player pid attempt = (Except.error Error.PuzzleNotFound, s)) := by
  constructor
  · intro h
    unfold submit_attempt
    rw [if_pos h]
  · intro hlen hpz
    unfold submit_attempt
    rw [if_neg (fun hc => hc hlen), hpz]

/-- Witness for C8's amended statement at concrete inputs. -/
theorem submit_error_order_witness :
    submit_attempt initialState 0 99 [1, 2] =
        (Except.error Error.InvalidWordLength, initialState) ∧
      submit_attempt initialState 0 99 [1, 2, 3, 4, 5] =
        (Except.error Error.PuzzleNotFound, initialState) :=
  ⟨(submit_error_order initialState 0 99 [1, 2]).1 (by decide),
    (submit_error_order initialState 0 99 [1, 2, 3, 4, 5]).2 (by decide) rfl⟩

end Wordle

namespace Wordle

theorem scoreLoop_cons (answer : List Nat) (att : Attempt) (rest : List Attempt) :
    scoreLoop answer (att :: rest) =
      ({ guess := att.guess, scores := score_guess att.guess answer } ::
          (scoreLoop answer rest).1,
        is_all_correct (score_guess att.guess answer) || (scoreLoop answer rest).2) := rfl

/-- `finalize_result`'s rescoring keeps the number of attempts. -/
theorem scoreLoop_length (answer : List Nat) (atts : List Attempt) :
    (scoreLoop answer atts).1.length = atts.length := by
  induction atts with
  | nil => rfl
  | cons att rest ih =>
    rw [scoreLoop_cons, List.length_cons, ih, List.length_cons]

end Wordle

namespace Wordle

/-- Replacing one attempt list with one of bounded length keeps the global
attempts-length bound. -/
theorem attempts_le_setAttempts (s : ContractState) (pid q : Nat) (atts : List Attempt)
    (h : ∀ k p, ((s.attempts k p).getD []).length ≤ MAX_ATTEMPTS)
    (hlen : atts.length ≤ MAX_ATTEMPTS) :
    ∀ k p, (((setAttempts s pid q atts).attempts k p).getD []).length ≤ MAX_ATTEMPTS := by
  intro k p
  unfold setAttempts
  dsimp only
  split
  · exact hlen
  · exact h k p

/-- The finalize loop preserves the attempts-length bound: it only replaces
lists with rescored lists of the same length. -/
theorem finalizePlayers_attempts_le (answer : List Nat) (pid : Nat) :
    ∀ (ps : List Nat) (s : ContractState) (wc : Nat),
      (∀ k p, ((s.attempts k p).getD []).length ≤ MAX_ATTEMPTS) →
      ∀ k p,
        (((finalizePlayers answer pid ps s wc).2.attempts k p).getD []).length ≤ MAX_ATTEMPTS := by
  intro ps
  induction ps with
  | nil => intro s wc h k p; exact h k p
  | cons q rest ih =>
    intro s wc h k p
    unfold finalizePlayers
    dsimp only
    have hset : ∀ k p,
        (((setAttempts s pid q
            (scoreLoop answer ((s.attempts pid q).getD [])).1).attempts k p).getD []).length ≤
          MAX_ATTEMPTS :=
      attempts_le_setAttempts s pid q _ h (by rw [scoreLoop_length]; exact h pid q)
    split
    · split
      · exact hset k p
      · exact ih
          (setWinner (setAttempts s pid q
            (scoreLoop answer ((s.attempts pid q).getD [])).1) pid q true) _
          (fun k p => hset k p) k p
    · exact ih _ _ hset k p

/-- Every contract invocation preserves the attempts-length bound. -/
theorem apply_attempts_le (op : Op) (s : ContractState)
    (h : ∀ k p, ((s.attempts k p).getD []).length ≤ MAX_ATTEMPTS) :
    ∀ k p, (((apply op s).2.attempts k p).getD []).length ≤ MAX_ATTEMPTS := by
  cases op with
  | opInit a b c =>
    intro k p
    unfold apply
    dsimp only
    unfold init
    split
    · exact h k p
    · exact h k p
  | opCreate pid c =>
    intro k p
    unfold apply
    dsimp only
    unfold create_daily_puzzle
    rcases hga : get_admin s with e | a
    · exact h k p
    · dsimp only
      split
      · exact h k p
      · exact h k p
  | opSubmit player pid attempt =>
    unfold apply
    dsimp only
    unfold submit_attempt
    split
    · exact h
    · split
      · exact h
      · rename_i puzzle hpz
        split
        · exact h
        · dsimp only
          split
          · exact h
          · rename_i hcap
            have hlt : ((s.attempts pid player).getD []).length + 1 ≤ MAX_ATTEMPTS := by
              rw [Nat.not_le] at hcap
              omega
            split
            · split
              · exact h
              · split
                · exact h
                · unfold finishSubmit
                  split
                  · refine attempts_le_setAttempts _ pid player _ h ?_
                    rw [List.length_append, List.length_singleton]
                    exact hlt
                  · refine attempts_le_setAttempts _ pid player _ h ?_
                    rw [List.length_append, List.length_singleton]
                    exact hlt
            · unfold finishSubmit
              split
              · refine attempts_le_setAttempts _ pid player _ h ?_
                rw [List.length_append, List.length_singleton]
                exact hlt
              · refine attempts_le_setAttempts _ pid player _ h ?_
                rw [List.length_append, List.length_singleton]
                exact hlt
  | opReveal H pid answer =>
    intro k p
    unfold apply
    dsimp only
    unfold reveal_answer
    rcases hga : get_admin s with e | a
    · exact h k p
    · dsimp only
      split
      · exact h k p
      · split
        · exact h k p
        · split
          · exact h k p
          · split
            · exact h k p
            · exact h k p
  | opFinalize player pid =>
    intro k p
    unfold apply
    dsimp only
    unfold finalize_result
    rcases hga : get_admin s with e | a
    · exact h k p
    · dsimp only
      split
      · exact h k p
      · rename_i puzzle hpz
        split
        · exact h k p
        · split
          · exact h k p
          · split
            · rename_i e s1 heq
              have h2 := finalizePlayers_attempts_le puzzle.answer pid
                ((s.playerLists pid).getD []) s 0 h k p
              rw [heq] at h2
              exact h2
            · rename_i wc s1 heq
              have h2 := finalizePlayers_attempts_le puzzle.answer pid
                ((s.playerLists pid).getD []) s 0 h k p
              rw [heq] at h2
              exact h2

end Wordle

namespace Wordle

/-- C6: with `MAX_ATTEMPTS` (6) attempts already recorded, the next
submission by that player for that puzzle fails with `TooManyAttempts` and
changes nothing; and in every reachable state a player's attempt count for a
puzzle never exceeds `MAX_ATTEMPTS`. -/
theorem attempt_cap :
    (∀ (s : ContractState) (player pid : Nat) (attempt : List Nat) (pz : PuzzleData),
        s.puzzles pid = some pz → pz.status = PuzzleStatus.Open →
        attempt.length = WORD_LENGTH →
        ((s.attempts pid player).getD []).length = MAX_ATTEMPTS →
        submit_attempt s player pid attempt = (Except.error Error.TooManyAttempts, s)) ∧
      ∀ (s : ContractState), Reachable s →
        ∀ (pid player : Nat), ((s.attempts pid player).getD []).length ≤ MAX_ATTEMPTS := by
  constructor
  · intro s player pid attempt pz hpz hopen hlen hcnt
    unfold submit_attempt
    rw [if_neg (fun hc => hc hlen), hpz]
    dsimp only
    rw [if_neg (fun hc => hc hopen)]
    rw [if_pos (by rw [hcnt])]
  · intro s hr
    induction hr with
    | empty => intro pid p; exact Nat.zero_le _
    | step op hr ih => exact fun pid p => apply_attempts_le op _ ih pid p

/-- Witness for C6: the seventh submission by player 0 fails, and the empty
ledger is reachable with all attempt counts within the cap. -/
theorem attempt_cap_witness :
    submit_attempt exampleCapState 0 1 [1, 2, 3, 4, 5] =
        (Except.error Error.TooManyAttempts, exampleCapState) ∧
      ((initialState.attempts 0 0).getD []).length ≤ MAX_ATTEMPTS :=
  ⟨attempt_cap.1 exampleCapState 0 1 [1, 2, 3, 4, 5]
      { answer_commitment := [1, 2, 3, 4, 5], status := PuzzleStatus.Open,
        answer := [], winner_count := 0, player_count := 1 } rfl rfl rfl rfl,
    attempt_cap.2 initialState Reachable.empty 0 0⟩

end Wordle

namespace Wordle

theorem checked_add_lt (a b : Nat) (h : a + b < U32_MOD) : checked_add a b = some (a + b) := by
  unfold checked_add
  rw [if_pos h]

/-- The finalize loop cannot overflow `winner_count`: it increments at most
once per player, so any `u32`-sized player list keeps the sum in range. -/
theorem finalizePlayers_ok (answer : List Nat) (pid : Nat) :
    ∀ (ps : List Nat) (s : ContractState) (wc : Nat), wc + ps.length < U32_MOD →
      ∃ wc' s1, finalizePlayers answer pid ps s wc = (Except.ok wc', s1) := by
  intro ps
  induction ps with
  | nil => intro s wc h; exact ⟨wc, s, rfl⟩
  | cons q rest ih =>
    intro s wc h
    rw [List.length_cons] at h
    unfold finalizePlayers
    dsimp only
    split
    · rw [checked_add_lt wc 1 (by omega)]
      exact ih _ (wc + 1) (by omega)
    · exact ih _ wc (by omega)

/-- C7: every operation that returns an error leaves the state exactly as it
was — validation precedes any mutation on all failing paths (the only caveat
being that player lists fit a `u32` length, which the host's vector type
guarantees). -/
theorem error_atomic (op : Op) (s : ContractState)
    (hcap : ∀ pid, ((s.playerLists pid).getD []).length < U32_MOD) (e : Error)
    (herr : (apply op s).1 = Except.error e) : (apply op s).2 = s := by
  cases op with
  | opInit a b c =>
    unfold apply at herr ⊢
    dsimp only at herr ⊢
    unfold init at herr ⊢
    by_cases hA : s.admin.isSome
    · rw [if_pos hA]
    · rw [if_neg hA] at herr
      exact absurd herr (by simp)
  | opCreate pid c =>
    unfold apply at herr ⊢
    dsimp only at herr ⊢
    unfold create_daily_puzzle at herr ⊢
    rcases hga : get_admin s with e' | a
    · rw [hga] at herr
    · rw [hga] at herr
      dsimp only at herr ⊢
      by_cases hex : (s.puzzles pid).isSome
      · rw [if_pos hex]
      · rw [if_neg hex] at herr
        exact absurd herr (by simp)
  | opSubmit player pid attempt =>
    unfold apply at herr ⊢
    dsimp only at herr ⊢
    unfold submit_attempt at herr ⊢
    by_cases hlen : attempt.length ≠ WORD_LENGTH
    · rw [if_pos hlen]
    · rw [if_neg hlen] at herr ⊢
      rcases hp : s.puzzles pid with _ | puzzle
      · rw [hp] at herr
      · rw [hp] at herr
        dsimp only at herr ⊢
        by_cases hst : puzzle.status ≠ PuzzleStatus.Open
        · rw [if_pos hst]
        · rw [if_neg hst] at herr ⊢
          by_cases hcap6 : ((s.attempts pid player).getD []).length ≥ MAX_ATTEMPTS
          · rw [if_pos hcap6]
          · rw [if_neg hcap6] at herr ⊢
            have hadd2 : checked_add ((s.attempts pid player).getD []).length 1 =
                some (((s.attempts pid player).getD []).length + 1) := by
              refine checked_add_lt _ _ ?_
              unfold MAX_ATTEMPTS at hcap6
              unfold U32_MOD
              omega
            by_cases h0 : ((s.attempts pid player).getD []).length = 0
            · rw [if_pos h0] at herr ⊢
              by_cases hfull : puzzle.player_count ≥ MAX_PLAYERS_PER_PUZZLE
              · rw [if_pos hfull]
              · rw [if_neg hfull] at herr ⊢
                have hadd : checked_add puzzle.player_count 1 =
                    some (puzzle.player_count + 1) := by
                  refine checked_add_lt _ _ ?_
                  unfold MAX_PLAYERS_PER_PUZZLE at hfull
                  unfold U32_MOD
                  omega
                rw [hadd] at herr ⊢
                dsimp only at herr ⊢
                unfold finishSubmit at herr ⊢
                rw [hadd2] at herr
                exact absurd herr (by simp)
            · rw [if_neg h0] at herr ⊢
              unfold finishSubmit at herr ⊢
              rw [hadd2] at herr
              exact absurd herr (by simp)
  | opReveal H pid answer =>
    unfold apply at herr ⊢
    dsimp only at herr ⊢
    unfold reveal_answer at herr ⊢
    rcases hga : get_admin s with e' | a
    · rw [hga] at herr
    · rw [hga] at herr
      dsimp only at herr ⊢
      by_cases hlen : answer.length ≠ WORD_LENGTH
      · rw [if_pos hlen]
      · rw [if_neg hlen] at herr ⊢
        rcases hp : s.puzzles pid with _ | puzzle
        · rw [hp] at herr
        · rw [hp] at herr
          dsimp only at herr ⊢
          by_cases hst : puzzle.status ≠ PuzzleStatus.Open
          · rw [if_pos hst]
          · rw [if_neg hst] at herr ⊢
            by_cases hH : H answer ≠ puzzle.answer_commitment
            · rw [if_pos hH]
            · rw [if_neg hH] at herr
              exact absurd herr (by simp)
  | opFinalize player pid =>
    unfold apply at herr ⊢
    dsimp only at herr ⊢
    unfold finalize_result at herr ⊢
    rcases hga : get_admin s with e' | a
    · rw [hga] at herr
    · rw [hga] at herr
      dsimp only at herr ⊢
      rcases hp : s.puzzles pid with _ | puzzle
      · rw [hp] at herr
      · rw [hp] at herr
        dsimp only at herr ⊢
        by_cases hfin : puzzle.status = PuzzleStatus.Finalized
        · rw [if_pos hfin]
        · rw [if_neg hfin] at herr ⊢
          by_cases hrev : puzzle.status ≠ PuzzleStatus.Revealed
          · rw [if_pos hrev]
          · rw [if_neg hrev] at herr ⊢
            obtain ⟨wc', s1, hfp⟩ := finalizePlayers_ok puzzle.answer pid
              ((s.playerLists pid).getD []) s 0
              (by have := hcap pid; omega)
            rw [hfp] at herr
            exact absurd herr (by simp)

end Wordle

namespace Wordle

/-- Witness for C7: a failing submission (wrong length, unknown puzzle)
leaves the empty ledger untouched. -/
theorem error_atomic_witness :
    (apply (Op.opSubmit 0 99 [1, 2]) initialState).2 = initialState :=
  error_atomic (Op.opSubmit 0 99 [1, 2]) initialState
    (fun _ => show (0 : Nat) < U32_MOD by decide) Error.InvalidWordLength rfl

end Wordle

namespace Wordle

theorem finalizePlayers_puzzles (answer : List Nat) (pid : Nat) :
    ∀ (ps : List Nat) (s : ContractState) (wc : Nat),
      (finalizePlayers answer pid ps s wc).2.puzzles = s.puzzles := by
  intro ps
  induction ps with
  | nil => intro s wc; rfl
  | cons q rest ih =>
    intro s wc
    unfold finalizePlayers
    dsimp only
    split
    · split
      · rfl
      · exact ih _ _
    · exact ih _ _

theorem finalizePlayers_playerLists (answer : List Nat) (pid : Nat) :
    ∀ (ps : List Nat) (s : ContractState) (wc : Nat),
      (finalizePlayers answer pid ps s wc).2.playerLists = s.playerLists := by
  intro ps
  induction ps with
  | nil => intro s wc; rfl
  | cons q rest ih =>
    intro s wc
    unfold finalizePlayers
    dsimp only
    split
    · split
      · rfl
      · exact ih _ _
    · exact ih _ _

theorem finalizePlayers_admin (answer : List Nat) (pid : Nat) :
    ∀ (ps : List Nat) (s : ContractState) (wc : Nat),
      (finalizePlayers answer pid ps s wc).2.admin = s.admin := by
  intro ps
  induction ps with
  | nil => intro s wc; rfl
  | cons q rest ih =>
    intro s wc
    unfold finalizePlayers
    dsimp only
    split
    · split
      · rfl
      · exact ih _ _
    · exact ih _ _

/-- No operation ever lowers a puzzle's lifecycle rank. -/
theorem apply_statusRank_le (op : Op) (s : ContractState) (pid : Nat) :
    statusRank (s.puzzles pid) ≤ statusRank ((apply op s).2.puzzles pid) := by
  cases op with
  | opInit a b c =>
    unfold apply
    dsimp only
    unfold init
    split
    · exact le_refl _
    · exact le_refl _
  | opCreate pid' c =>
    unfold apply
    dsimp only
    unfold create_daily_puzzle
    rcases hga : get_admin s with e | a
    · exact le_refl _
    · dsimp only
      by_cases hex : (s.puzzles pid').isSome
      · rw [if_pos hex]
      · rw [if_neg hex]
        dsimp only
        unfold setPlayerList setPuzzle
        dsimp only
        by_cases hk : pid = pid'
        · subst hk
          rw [if_pos rfl]
          rw [Option.not_isSome_iff_eq_none] at hex
          rw [hex]
          exact Nat.zero_le _
        · rw [if_neg hk]
  | opSubmit player pid' attempt =>
    unfold apply
    dsimp only
    unfold submit_attempt
    split
    · exact le_refl _
    · split
      · exact le_refl _
      · rename_i puzzle hpz
        split
        · exact le_refl _
        · dsimp only
          split
          · exact le_refl _
          · split
            · split
              · exact le_refl _
              · split
                · exact le_refl _
                · unfold finishSubmit
                  split
                  · unfold setAttempts setPuzzle setPlayerList
                    dsimp only
                    by_cases hk : pid = pid'
                    · subst hk
                      rw [if_pos rfl, hpz]
                      exact le_refl _
                    · rw [if_neg hk]
                  · unfold setAttempts setPuzzle setPlayerList
                    dsimp only
                    by_cases hk : pid = pid'
                    · subst hk
                      rw [if_pos rfl, hpz]
                      exact le_refl _
                    · rw [if_neg hk]
            · unfold finishSubmit
              split
              · exact le_refl _
              · exact le_refl _
  | opReveal H pid' answer =>
    unfold apply
    dsimp only
    unfold reveal_answer
    rcases hga : get_admin s with e | a
    · exact le_refl _
    · dsimp only
      split
      · exact le_refl _
      · split
        · exact le_refl _
        · rename_i puzzle hpz
          split
          · exact le_refl _
          · rename_i hst
            rw [not_not] at hst
            split
            · exact le_refl _
            · unfold setPuzzle
              dsimp only
              by_cases hk : pid = pid'
              · subst hk
                rw [if_pos rfl, hpz]
                simp only [statusRank]
                rw [hst]
                decide
              · rw [if_neg hk]
  | opFinalize player pid' =>
    unfold apply
    dsimp only
    unfold finalize_result
    rcases hga : get_admin s with e | a
    · exact le_refl _
    · dsimp only
      split
      · exact le_refl _
      · rename_i puzzle hpz
        split
        · exact le_refl _
        · split
          · exact le_refl _
          · rename_i hfin hrev
            rw [not_not] at hrev
            split
            · rename_i e s1 heq
              have hpuz := finalizePlayers_puzzles puzzle.answer pid'
                ((s.playerLists pid').getD []) s 0
              rw [heq] at hpuz
              dsimp only at hpuz
              rw [hpuz]
            · rename_i wc s1 heq
              have hpuz := finalizePlayers_puzzles puzzle.answer pid'
                ((s.playerLists pid').getD []) s 0
              rw [heq] at hpuz
              dsimp only at hpuz
              unfold setPuzzle
              dsimp only
              by_cases hk : pid = pid'
              · subst hk
                rw [if_pos rfl, hpz]
                simp only [statusRank]
                rw [hrev]
                decide
              · rw [if_neg hk, hpuz]

end Wordle

namespace Wordle

/-- C5: puzzle status never regresses under any operation, and each
operation that requires an earlier lifecycle stage fails once a later stage
is reached: submission on a non-Open puzzle fails with `PuzzleNotOpen`,
reveal on a non-Open puzzle fails (with `PuzzleAlreadyFinalized`), and
finalize fails with `AnswerNotRevealed` before reveal and with
`PuzzleAlreadyFinalized` after a first finalize. -/
theorem lifecycle_monotone :
    (∀ (op : Op) (s : ContractState) (pid : Nat),
        statusRank (s.puzzles pid) ≤ statusRank ((apply op s).2.puzzles pid)) ∧
      (∀ (s : ContractState) (player pid : Nat) (attempt : List Nat) (pz : PuzzleData),
          s.puzzles pid = some pz → pz.status ≠ PuzzleStatus.Open →
          attempt.length = WORD_LENGTH →
          submit_attempt s player pid attempt = (Except.error Error.PuzzleNotOpen, s)) ∧
      (∀ (H : List Nat → List Nat) (s : ContractState) (pid : Nat) (answer : List Nat)
          (adm : Nat) (pz : PuzzleData),
          s.admin = some adm → s.puzzles pid = some pz →
          pz.status ≠ PuzzleStatus.Open → answer.length = WORD_LENGTH →
          reveal_answer H s pid answer = (Except.error Error.PuzzleAlreadyFinalized, s)) ∧
      (∀ (s : ContractState) (player pid adm : Nat) (pz : PuzzleData),
          s.admin = some adm → s.puzzles pid = some pz →
          (pz.status = PuzzleStatus.Finalized →
            finalize_result s player pid = (Except.error Error.PuzzleAlreadyFinalized, s)) ∧
          (pz.status = PuzzleStatus.Open →
            finalize_result s player pid = (Except.error Error.AnswerNotRevealed, s))) := by
  refine ⟨apply_statusRank_le, ?_, ?_, ?_⟩
  · intro s player pid attempt pz hpz hst hlen
    unfold submit_attempt
    rw [if_neg (fun hc => hc hlen), hpz]
    dsimp only
    rw [if_pos hst]
  · intro H s pid answer adm pz hadm hpz hst hlen
    unfold reveal_answer get_admin
    rw [hadm]
    dsimp only
    rw [if_neg (fun hc => hc hlen), hpz]
    dsimp only
    rw [if_pos hst]
  · intro s player pid adm pz hadm hpz
    constructor
    · intro hfin
      unfold finalize_result get_admin
      rw [hadm]
      dsimp only
      rw [hpz]
      dsimp only
      rw [if_pos hfin]
    · intro hopen
      unfold finalize_result get_admin
      rw [hadm]
      dsimp only
      rw [hpz]
      dsimp only
      rw [if_neg (fun hc : pz.status = PuzzleStatus.Finalized => by
        rw [hopen] at hc
        exact PuzzleStatus.noConfusion hc)]
      rw [if_pos (fun hc : pz.status = PuzzleStatus.Revealed => by
        rw [hopen] at hc
        exact PuzzleStatus.noConfusion hc)]

/-- Witness for C5: a late submission on the revealed puzzle fails with the
state-conflict error, and the rank inequality holds on a concrete step. -/
theorem lifecycle_monotone_witness :
    statusRank (exampleRevealedState.puzzles 1) ≤
        statusRank ((apply (Op.opFinalize 0 1) exampleRevealedState).2.puzzles 1) ∧
      submit_attempt exampleRevealedState 0 1 [1, 2, 3, 4, 5] =
        (Except.error Error.PuzzleNotOpen, exampleRevealedState) :=
  ⟨lifecycle_monotone.1 (Op.opFinalize 0 1) exampleRevealedState 1,
    lifecycle_monotone.2.1 exampleRevealedState 0 1 [1, 2, 3, 4, 5]
      { answer_commitment := [1, 2, 3, 4, 5], status := PuzzleStatus.Revealed,
        answer := [1, 2, 3, 4, 5], winner_count := 0, player_count := 0 }
      rfl (fun hc => PuzzleStatus.noConfusion hc) rfl⟩

end Wordle

namespace Wordle

theorem countP_congr_eq (p q : Nat → Bool) (l : List Nat) (h : ∀ a ∈ l, p a = q a) :
    l.countP p = l.countP q := by
  induction l with
  | nil => rfl
  | cons x xs ih =>
    rw [List.countP_cons, List.countP_cons, h x (List.mem_cons_self x xs),
      ih fun a ha => h a (List.mem_cons_of_mem x ha)]

/-- What the finalize loop computes on a duplicate-free player list: the
returned `winner_count` adds one per solving player, the `Winner` flag is set
exactly for solving players in the list, and every other winner record is
untouched. -/
theorem finalizePlayers_spec (answer : List Nat) (pid : Nat) :
    ∀ (ps : List Nat) (s : ContractState) (wc : Nat),
      ps.Nodup → wc + ps.length < U32_MOD →
      (finalizePlayers answer pid ps s wc).1 =
          Except.ok (wc + ps.countP fun p =>
            (scoreLoop answer ((s.attempts pid p).getD [])).2) ∧
        (∀ p, p ∈ ps →
          (finalizePlayers answer pid ps s wc).2.winners pid p =
            (if (scoreLoop answer ((s.attempts pid p).getD [])).2 = true then some true
             else s.winners pid p)) ∧
        (∀ k p, ¬(k = pid ∧ p ∈ ps) →
          (finalizePlayers answer pid ps s wc).2.winners k p = s.winners k p) := by
  intro ps
  induction ps with
  | nil =>
    intro s wc hnd hcap
    refine ⟨by rw [List.countP_nil, Nat.add_zero]; rfl,
      fun p hp => absurd hp (List.not_mem_nil p), fun k p _ => rfl⟩
  | cons q rest ih =>
    intro s wc hnd hcap
    rw [List.nodup_cons] at hnd
    obtain ⟨hq, hrest⟩ := hnd
    rw [List.length_cons] at hcap
    unfold finalizePlayers
    dsimp only
    by_cases hwon : (scoreLoop answer ((s.attempts pid q).getD [])).2 = true
    · rw [if_pos hwon, checked_add_lt wc 1 (by omega)]
      set s1 := setAttempts s pid q (scoreLoop answer ((s.attempts pid q).getD [])).1 with hs1
      set s2 := setWinner s1 pid q true with hs2
      have hagree : ∀ p, p ∈ rest → s2.attempts pid p = s.attempts pid p := by
        intro p hp
        have hpq : p ≠ q := fun hc => hq (hc ▸ hp)
        show (if pid = pid ∧ p = q then _ else s.attempts pid p) = s.attempts pid p
        rw [if_neg (fun hc => hpq hc.2)]
      have hwin_keep : ∀ k p, ¬(k = pid ∧ p = q) → s2.winners k p = s.winners k p := by
        intro k p hkp
        show (if k = pid ∧ p = q then some true else s.winners k p) = s.winners k p
        rw [if_neg hkp]
      obtain ⟨ih1, ih2, ih3⟩ := ih s2 (wc + 1) hrest (by omega)
      refine ⟨?_, ?_, ?_⟩
      · rw [ih1, List.countP_cons, hwon, if_pos rfl]
        congr 1
        rw [countP_congr_eq _ _ rest fun p hp => by rw [hagree p hp]]
        omega
      · intro p hp
        rcases List.mem_cons.mp hp with hpq | hpr
        · subst hpq
          rw [ih3 pid p (fun hc => hq hc.2), if_pos hwon]
          show (if pid = pid ∧ p = p then some true else s1.winners pid p) = some true
          rw [if_pos ⟨rfl, rfl⟩]
        · rw [ih2 p hpr, hagree p hpr]
          have hpq : p ≠ q := fun hc => hq (hc ▸ hpr)
          rw [hwin_keep pid p (fun hc => hpq hc.2)]
      · intro k p hkp
        have hknr : ¬(k = pid ∧ p ∈ rest) := by
          intro hc
          exact hkp ⟨hc.1, List.mem_cons_of_mem q hc.2⟩
        rw [ih3 k p hknr]
        refine hwin_keep k p fun hc => hkp ⟨hc.1, hc.2 ▸ List.mem_cons_self q rest⟩
    · rw [if_neg hwon]
      set s1 := setAttempts s pid q (scoreLoop answer ((s.attempts pid q).getD [])).1 with hs1
      have hagree : ∀ p, p ∈ rest → s1.attempts pid p = s.attempts pid p := by
        intro p hp
        have hpq : p ≠ q := fun hc => hq (hc ▸ hp)
        show (if pid = pid ∧ p = q then _ else s.attempts pid p) = s.attempts pid p
        rw [if_neg (fun hc => hpq hc.2)]
      obtain ⟨ih1, ih2, ih3⟩ := ih s1 wc hrest (by omega)
      refine ⟨?_, ?_, ?_⟩
      · rw [ih1, List.countP_cons, if_neg hwon]
        congr 1
        rw [countP_congr_eq _ _ rest fun p hp => by rw [hagree p hp]]
        omega
      · intro p hp
        rcases List.mem_cons.mp hp with hpq | hpr
        · subst hpq
          rw [ih3 pid p (fun hc => hq hc.2), if_neg hwon]
          rfl
        · rw [ih2 p hpr, hagree p hpr]
          rfl
      · intro k p hkp
        have hknr : ¬(k = pid ∧ p ∈ rest) := by
          intro hc
          exact hkp ⟨hc.1, List.mem_cons_of_mem q hc.2⟩
        exact ih3 k p hknr

end Wordle

namespace Wordle

/-- For a word-length answer and word-length guesses, the finalize loop's
solved flag holds exactly when some attempt equals the answer. -/
theorem scoreLoop_won_iff (answer : List Nat) (ha : answer.length = WORD_LENGTH) :
    ∀ (atts : List Attempt), (∀ att ∈ atts, att.guess.length = WORD_LENGTH) →
      ((scoreLoop answer atts).2 = true ↔ ∃ att ∈ atts, att.guess = answer) := by
  intro atts
  induction atts with
  | nil =>
    intro _
    constructor
    · intro h
      exact absurd h (by rw [show scoreLoop answer [] = ([], false) from rfl]; simp)
    · rintro ⟨att, hm, -⟩
      exact absurd hm (List.not_mem_nil att)
  | cons att rest ih =>
    intro hlen
    have hiff : is_all_correct (score_guess att.guess answer) = true ↔ att.guess = answer :=
      ⟨score_guess_eq_of_all_correct att.guess answer
          (hlen att (List.mem_cons_self att rest)) ha,
        score_guess_self att.guess answer⟩
    have ihr := ih fun a ha2 => hlen a (List.mem_cons_of_mem att ha2)
    rw [scoreLoop_cons]
    dsimp only
    rw [Bool.or_eq_true]
    constructor
    · rintro (h | h)
      · exact ⟨att, List.mem_cons_self att rest, hiff.mp h⟩
      · obtain ⟨a, ha', he⟩ := ihr.mp h
        exact ⟨a, List.mem_cons_of_mem att ha', he⟩
    · rintro ⟨a, ha', he⟩
      rcases List.mem_cons.mp ha' with rfl | hm
      · exact Or.inl (hiff.mpr he)
      · exact Or.inr (ihr.mpr ⟨a, hm, he⟩)

/-- C4: finalizing a revealed puzzle (duplicate-free player list, no winner
flags yet, word-length guesses and answer) succeeds; the stored
`winner_count` counts exactly the players with some attempt equal to the
revealed answer, and `is_winner` holds exactly for those players. -/
theorem finalize_winner_spec (s : ContractState) (player pid adm : Nat) (pz : PuzzleData)
    (hadm : s.admin = some adm) (hpz : s.puzzles pid = some pz)
    (hrev : pz.status = PuzzleStatus.Revealed) (ha : pz.answer.length = WORD_LENGTH)
    (hnd : ((s.playerLists pid).getD []).Nodup)
    (hcap : ((s.playerLists pid).getD []).length < U32_MOD)
    (hguesses : ∀ p, p ∈ (s.playerLists pid).getD [] →
      ∀ att ∈ (s.attempts pid p).getD [], att.guess.length = WORD_LENGTH)
    (hnowin : ∀ p, s.winners pid p = none) :
    (finalize_result s player pid).1 = Except.ok () ∧
      (finalize_result s player pid).2.puzzles pid = some
        { pz with
            status := PuzzleStatus.Finalized
            winner_count := ((s.playerLists pid).getD []).countP fun p =>
              ((s.attempts pid p).getD []).any fun att => att.guess == pz.answer } ∧
      ∀ p, is_winner (finalize_result s player pid).2 pid p = true ↔
        (p ∈ (s.playerLists pid).getD [] ∧
          ∃ att ∈ (s.attempts pid p).getD [], att.guess = pz.answer) := by
  have hbool : ∀ p, p ∈ (s.playerLists pid).getD [] →
      (scoreLoop pz.answer ((s.attempts pid p).getD [])).2 =
        ((s.attempts pid p).getD []).any fun att => att.guess == pz.answer := by
    intro p hp
    rw [Bool.eq_iff_iff, scoreLoop_won_iff pz.answer ha _ (hguesses p hp), List.any_eq_true]
    constructor
    · rintro ⟨att, hm, he⟩
      exact ⟨att, hm, beq_iff_eq.mpr he⟩
    · rintro ⟨att, hm, he⟩
      exact ⟨att, hm, beq_iff_eq.mp he⟩
  unfold finalize_result get_admin
  rw [hadm]
  dsimp only
  rw [hpz]
  dsimp only
  rw [if_neg (fun hc : pz.status = PuzzleStatus.Finalized => by
    rw [hrev] at hc
    exact PuzzleStatus.noConfusion hc)]
  rw [if_neg (not_not.mpr hrev)]
  obtain ⟨h1, h2, h3⟩ := finalizePlayers_spec pz.answer pid ((s.playerLists pid).getD []) s 0
    hnd (by omega)
  rcases hfp : finalizePlayers pz.answer pid ((s.playerLists pid).getD []) s 0 with ⟨r, s1⟩
  rw [hfp] at h1 h2 h3
  dsimp only at h1 h2 h3
  subst h1
  dsimp only
  refine ⟨rfl, ?_, ?_⟩
  · show (if pid = pid then _ else s1.puzzles pid) = _
    rw [if_pos rfl, Nat.zero_add,
      countP_congr_eq _ _ ((s.playerLists pid).getD []) fun p hp => hbool p hp]
  · intro p
    unfold is_winner
    show ((setPuzzle s1 pid _).winners pid p).getD false = true ↔ _
    rw [setPuzzle_winners]
    by_cases hp : p ∈ (s.playerLists pid).getD []
    · rw [h2 p hp]
      by_cases hwon : (scoreLoop pz.answer ((s.attempts pid p).getD [])).2 = true
      · rw [if_pos hwon]
        simp only [Option.getD_some]
        constructor
        · intro _
          exact ⟨hp, (scoreLoop_won_iff pz.answer ha _ (hguesses p hp)).mp hwon⟩
        · intro _
          trivial
      · rw [if_neg hwon, hnowin p]
        simp only [Option.getD_none]
        constructor
        · intro hc
          exact absurd hc (by simp)
        · rintro ⟨-, hex⟩
          exact absurd ((scoreLoop_won_iff pz.answer ha _ (hguesses p hp)).mpr hex) hwon
    · rw [h3 pid p (fun hc => hp hc.2), hnowin p]
      simp only [Option.getD_none]
      constructor
      · intro hc
        exact absurd hc (by simp)
      · rintro ⟨hmem, -⟩
        exact absurd hmem hp

end Wordle

namespace Wordle

/-- Witness for C4: both exact-guess players are winners and
`winner_count = 2`. -/
theorem finalize_winner_spec_witness :
    (finalize_result exampleTwoWinnerState 10 1).1 = Except.ok () ∧
      (finalize_result exampleTwoWinnerState 10 1).2.puzzles 1 =
        some { answer_commitment := [1, 2, 3, 4, 5], status := PuzzleStatus.Finalized,
               answer := [1, 2, 3, 4, 5], winner_count := 2, player_count := 2 } ∧
      is_winner (finalize_result exampleTwoWinnerState 10 1).2 1 10 = true ∧
      is_winner (finalize_result exampleTwoWinnerState 10 1).2 1 20 = true := by
  obtain ⟨h1, h2, h3⟩ := finalize_winner_spec exampleTwoWinnerState 10 1 7
    { answer_commitment := [1, 2, 3, 4, 5], status := PuzzleStatus.Revealed,
      answer := [1, 2, 3, 4, 5], winner_count := 0, player_count := 2 }
    rfl rfl rfl (by decide) (by decide) (by decide)
    (by
      intro p hp att hatt
      have hp' : p = 10 ∨ p = 20 := by
        have : (exampleTwoWinnerState.playerLists 1).getD [] = [10, 20] := rfl
        rw [this] at hp
        rcases List.mem_cons.mp hp with h | h
        · exact Or.inl h
        · exact Or.inr (List.mem_singleton.mp h)
      have hatts : (exampleTwoWinnerState.attempts 1 p).getD [] =
          [{ guess := [1, 2, 3, 4, 5], scores := [] }] := by
        rcases hp' with rfl | rfl <;> rfl
      rw [hatts] at hatt
      rw [List.mem_singleton] at hatt
      subst hatt
      rfl)
    (fun p => rfl)
  refine ⟨h1, ?_, ?_, ?_⟩
  · rw [h2]
    rfl
  · exact (h3 10).mpr ⟨by decide,
      ⟨{ guess := [1, 2, 3, 4, 5], scores := [] }, by decide, rfl⟩⟩
  · exact (h3 20).mpr ⟨by decide,
      ⟨{ guess := [1, 2, 3, 4, 5], scores := [] }, by decide, rfl⟩⟩

end Wordle
